import Mathlib

/-!
Shallow embedding of `src/advanced-vector/vector.h`: a growable array
(`Vector<T>`) built on a raw-memory owner (`RawMemory<T>`).

Modelling conventions:
* A `Vector` state is the list of live elements (slots `[0, size)`) together
  with the capacity of the owned `RawMemory` buffer; `Size` is the list length,
  mirroring the `size_` field since every modelled operation keeps `size_`
  equal to the number of live elements (except where noted for the
  exception-swallowing defect, which is modelled separately).
* Iterator arguments (`const_iterator pos`) are modelled as the offset
  `pos - cbegin()`, exactly the quantity the C++ code computes first.
* Operations whose C++ execution is undefined behaviour on some input
  (out-of-range reads, invalid `std::move_backward` ranges, `size_t`
  underflow) return `Option` and yield `none` on those inputs.
* Operations in which an element constructor or copy/move can throw are
  modelled a second time over `Except ε`, with the fallible element
  operations passed in as parameters (`mk` for the construction of the new
  element from `args...`, `tr i a` for the move-or-copy transfer of the
  element at old index `i` during reallocation).
-/

namespace AdvancedVector

/-- State of a `Vector<T>` (vector.h lines 91-192): the list of live,
constructed elements occupying slots `[0, size_)` of the owned buffer,
plus the buffer's capacity (`RawMemory::capacity_`). -/
structure Vector (α : Type) where
  elems : List α
  cap : ℕ
  deriving DecidableEq, Repr

variable {α : Type} {ε : Type}

/-- `Vector() = default` (line 97): null buffer, capacity 0, size 0. -/
def Vector.empty : Vector α := ⟨[], 0⟩

/-- `Size()` (lines 343-346): the `size_` field, i.e. the number of live elements. -/
def Vector.Size (v : Vector α) : ℕ := v.elems.length

/-- `Capacity()` (lines 348-351): `data_.Capacity()`. -/
def Vector.Capacity (v : Vector α) : ℕ := v.cap

/-- The new capacity chosen by every growing path
(lines 300, 332, 407): `size_ == 0 ? 1 : size_ * 2`. -/
def growCap (size : ℕ) : ℕ := if size = 0 then 1 else size * 2

/-- `Vector(size_t size)` (lines 194-200): capacity `size`, and `size`
value-constructed elements; `d` stands for the value-initialised `T()`. -/
def Vector.mkSized (n : ℕ) (d : α) : Vector α := ⟨List.replicate n d, n⟩

/-- `Vector(const Vector&)` (lines 202-208): new buffer of capacity
`other.size_`, copy-constructs the `size_` elements. -/
def Vector.CopyCtor (v : Vector α) : Vector α := ⟨v.elems, v.Size⟩

/-- `Vector(Vector&&)` (lines 210-216): default-initialise, then `Swap(other)`.
Returns (constructed vector, state of the source afterwards). -/
def Vector.MoveCtor (v : Vector α) : Vector α × Vector α :=
  (⟨v.elems, v.cap⟩, ⟨[], 0⟩)

/-- `operator=(const Vector&)` (lines 223-242), for distinct objects:
if `rhs.size_ > data_.Capacity()` build a copy and swap it in (capacity
becomes `rhs.size_`); otherwise reuse the buffer, assigning/constructing or
destroying elements so the contents become `rhs`'s elements. -/
def Vector.CopyAssign (a b : Vector α) : Vector α :=
  if b.Size > a.cap then ⟨b.elems, b.Size⟩ else ⟨b.elems, a.cap⟩

/-- `operator=(Vector&&)` (lines 244-250), for distinct objects: `Swap(rhs)`
only — no element-level operation. Returns (this, rhs) afterwards. -/
def Vector.MoveAssign (a b : Vector α) : Vector α × Vector α :=
  (⟨b.elems, b.cap⟩, ⟨a.elems, a.cap⟩)

/-- Number of element copy operations (`CopyConstruct` / element copy
assignment) performed by `Vector(Vector&&)` (lines 210-216): the body is
`Swap(other)`, which swaps the buffer pointer, capacity and `size_`
(lines 59-62, 263-267) and touches no element. -/
def Vector.MoveCtorElemCopies : ℕ := 0

/-- Number of element copy operations performed by `operator=(Vector&&)`
(lines 244-250): the body is `Swap(rhs)` guarded by a self-assignment check;
no element is copied. -/
def Vector.MoveAssignElemCopies : ℕ := 0

/-- Number of element copy operations performed by `Vector(const Vector&)`
(lines 202-208): `uninitialized_copy_n` copy-constructs all `size_` elements. -/
def Vector.CopyCtorElemCopies (v : Vector α) : ℕ := v.Size

/-- `Swap` (lines 263-267): exchanges `size_` and the storage. -/
def Vector.SwapOp (a b : Vector α) : Vector α × Vector α := (b, a)

/-- `Reserve(new_capacity)` (lines 269-281): no-op when
`new_capacity <= data_.Capacity()`; otherwise allocate exactly
`new_capacity` slots, transfer the `size_` elements, destroy the originals,
swap buffers. -/
def Vector.Reserve (v : Vector α) (newCapacity : ℕ) : Vector α :=
  if newCapacity ≤ v.cap then v else ⟨v.elems, newCapacity⟩

/-- `Resize(new_size)` (lines 283-294): shrink destroys the trailing
elements; grow reserves then value-constructs the new tail (`d` is the
value-initialised `T()`); `new_size == size_` does nothing. -/
def Vector.Resize (v : Vector α) (newSize : ℕ) (d : α) : Vector α :=
  if newSize < v.Size then ⟨v.elems.take newSize, v.cap⟩
  else if v.Size < newSize then
    ⟨v.elems ++ List.replicate (newSize - v.Size) d, (v.Reserve newSize).cap⟩
  else v

/-- `PushBack(value)` (lines 296-317): if `size_ == Capacity()`, allocate
`growCap size_` slots, construct the new element at slot `size_` of the new
buffer, transfer the old elements before it, destroy the originals, swap;
otherwise construct in place at slot `size_`. Either way `++size_`. -/
def Vector.PushBack (v : Vector α) (x : α) : Vector α :=
  if v.Size = v.Capacity then ⟨v.elems ++ [x], growCap v.Size⟩
  else ⟨v.elems ++ [x], v.cap⟩

/-- `PushBack` with a fallible element construction `mk` (the
`new (…) T(std::forward<T1>(value))` at lines 302/314 may throw). The
`catch (...) { throw; }` at lines 304-306 rethrows; at that point only the
local `new_data` buffer exists and `*this` is untouched, so the error is
returned together with the unchanged vector state. -/
def Vector.PushBackE (v : Vector α) (mk : Except ε α) :
    Except (ε × Vector α) (Vector α) :=
  if v.Size = v.Capacity then
    match mk with
    | .error e => .error (e, v)
    | .ok x => .ok ⟨v.elems ++ [x], growCap v.Size⟩
  else
    match mk with
    | .error e => .error (e, v)
    | .ok x => .ok ⟨v.elems ++ [x], v.cap⟩

/-- `PopBack()` (lines 319-323): `destroy_n(data_ + size_ - 1, 1); --size_;`.
On an empty vector, `(data_ + size_) - 1` is a pointer before the buffer and
`--size_` underflows `size_t`: undefined behaviour, modelled as `none`. -/
def Vector.PopBack (v : Vector α) : Option (Vector α) :=
  if 0 < v.Size then some ⟨v.elems.dropLast, v.cap⟩ else none

/-- Whether the debug assertion evaluated on the `PopBack` path fires. The
sole assertion reached is `assert(offset <= capacity_)` inside
`RawMemory::operator+` (line 42), invoked as `data_ + size_` (line 321)
with `offset = size_`; it fires exactly when `size_ > capacity_`. No
assertion checks `size_ > 0`. -/
def Vector.PopBackAssertFires (v : Vector α) : Bool :=
  !(decide (v.Size ≤ v.Capacity))

/-- `EmplaceBack(args...)` (lines 325-341): construct (in place when
`size_ < Capacity()`, else into a fresh buffer of `growCap size_` slots at
slot `size_`, then transfer/destroy/swap); `++size_`; return
`*(data_.GetAddress() + size_ - 1)`. The returned reference is modelled as
the element at index `size_ - 1` after the increment. -/
def Vector.EmplaceBack (v : Vector α) (x : α) : Option α × Vector α :=
  let w : Vector α :=
    if v.Size < v.Capacity then ⟨v.elems ++ [x], v.cap⟩
    else ⟨v.elems ++ [x], growCap v.Size⟩
  (w.elems[w.Size - 1]?, w)

/-- `EmplaceBack` with a fallible element construction `mk` (the placement
`new` at line 329 or 333 may throw). In the growth path the new element is
constructed into the fresh `new_data` buffer at slot `size_` before any
existing element is transferred (line 333 precedes line 334), so a failure
unwinds with only the local buffer freed and `*this` untouched; in the
in-place path the failed construction at slot `size_` likewise leaves the
live elements and `size_` unchanged. -/
def Vector.EmplaceBackE (v : Vector α) (mk : Except ε α) :
    Except (ε × Vector α) (Vector α) :=
  if v.Size < v.Capacity then
    match mk with
    | .error e => .error (e, v)
    | .ok x => .ok ⟨v.elems ++ [x], v.cap⟩
  else
    match mk with
    | .error e => .error (e, v)
    | .ok x => .ok ⟨v.elems ++ [x], growCap v.Size⟩

/-- `EmplaceWithoutRealoc(offset, args...)` (lines 435-442), called when
`size_ < Capacity()`:
1. `T new_data = T(args...)` — build the value as a temporary;
2. `new(end()) T(std::forward<T>(*(end()-1)))` — move-construct slot
   `size_` from the element at `size_ - 1` (undefined behaviour when
   `size_ == 0`: `*(end()-1)` reads before the live range);
3. `std::move_backward(begin()+offset, end()-1, end())` — shift
   `[offset, size_-1)` one slot right (undefined behaviour when
   `offset == size_`: the range has `first > last`);
4. move-assign the temporary into slot `offset`.
Defined for `offset < size_`; the undefined cases return `none`. -/
def Vector.EmplaceWithoutRealoc (v : Vector α) (offset : ℕ) (x : α) :
    Option (Vector α) :=
  if offset < v.Size then
    some ⟨v.elems.take offset ++ x :: v.elems.drop offset, v.cap⟩
  else none

/-- `EmplaceWithRealoc(offset, args...)` (lines 404-433), all element
operations succeeding: new buffer of `growCap size_` slots; new element
constructed at slot `offset`; old prefix `[0, offset)` transferred before
it and old suffix `[offset, size_)` after it; originals destroyed; buffers
swapped. The suffix transfer count `size_ - offset` underflows when
`offset > size_` (undefined behaviour, `none`). -/
def Vector.EmplaceWithRealoc (v : Vector α) (offset : ℕ) (x : α) :
    Option (Vector α) :=
  if offset ≤ v.Size then
    some ⟨v.elems.take offset ++ x :: v.elems.drop offset, growCap v.Size⟩
  else none

/-- `Emplace(pos, args...)` (lines 353-365): `offset = pos - cbegin()`;
reallocating path when `size_ == Capacity()`, in-place path otherwise;
`++size_`; returns `begin() + offset`. The returned iterator is modelled as
the offset paired with the new state. -/
def Vector.Emplace (v : Vector α) (offset : ℕ) (x : α) :
    Option (ℕ × Vector α) :=
  if v.Size = v.Capacity then
    (v.EmplaceWithRealoc offset x).map fun w => (offset, w)
  else
    (v.EmplaceWithoutRealoc offset x).map fun w => (offset, w)

/-- `Insert(pos, value)` (lines 383-391): both overloads forward to
`Emplace`. -/
def Vector.Insert (v : Vector α) (offset : ℕ) (x : α) :
    Option (ℕ × Vector α) :=
  v.Emplace offset x

/-- `Erase(pos)` (lines 369-381): shift `[offset+1, size_)` one slot left by
move assignment, destroy the last slot, `--size_`; returns
`begin() + offset`. Precondition `pos != end()`; at `offset ≥ size_` the
code destroys a slot outside the live range (undefined behaviour, `none`). -/
def Vector.Erase (v : Vector α) (offset : ℕ) : Option (ℕ × Vector α) :=
  if offset < v.Size then
    some (offset, ⟨v.elems.take offset ++ v.elems.drop (offset + 1), v.cap⟩)
  else none

/-- Transfer of a block of elements into uninitialised storage
(`UninitializedMoveOrCopy`, lines 393-402) with a fallible per-element
move-or-copy `tr`: element at old index `start + k` is transferred by
`tr (start + k)`; the first failure aborts (the library then destroys the
elements it had constructed in the destination and rethrows). -/
def transferSeg (tr : ℕ → α → Except ε α) : ℕ → List α → Except ε (List α)
  | _, [] => .ok []
  | start, a :: rest =>
    match tr start a with
    | .error e => .error e
    | .ok b =>
      match transferSeg tr (start + 1) rest with
      | .error e => .error e
      | .ok bs => .ok (b :: bs)

/-- `EmplaceWithRealoc(offset, args...)` (lines 404-433) with fallible
element operations; returns the list of elements left live in the buffer
the vector owns on normal return.
1. lines 409-414: construct the new element (`mk`) at slot `offset` of the
   new buffer; `catch (...) { throw; }` — an error propagates.
2. lines 416-422: transfer the prefix `[0, offset)`;
   `catch (...) { Destroy(new_data + offset); throw; }` — an error
   propagates.
3. lines 424-429: transfer the suffix `[offset, size_)`;
   `catch (...) { std::destroy_n(new_data.GetAddress(), offset); }` — the
   catch block destroys the new buffer's prefix but does NOT rethrow, so
   control falls through to line 431: the old elements are destroyed, the
   buffers are swapped, and (back in `Emplace`) `size_` is incremented.
   The only element still live in the adopted buffer is the new one at
   slot `offset`. -/
def Vector.EmplaceWithRealocE (v : Vector α) (offset : ℕ) (mk : Except ε α)
    (tr : ℕ → α → Except ε α) : Except ε (List α) :=
  match mk with
  | .error e => .error e
  | .ok x =>
    match transferSeg tr 0 (v.elems.take offset) with
    | .error e => .error e
    | .ok pre =>
      match transferSeg tr offset (v.elems.drop offset) with
      | .error _ => .ok [x]
      | .ok suf => .ok (pre ++ x :: suf)

/-- The basic storage invariant: the number of live elements never exceeds
the capacity of the owned buffer. -/
def Vector.WF (v : Vector α) : Prop := v.Size ≤ v.Capacity

instance (v : Vector α) : Decidable v.WF :=
  inferInstanceAs (Decidable (v.Size ≤ v.Capacity))

/-- `n` consecutive `PushBack` calls starting from a default-constructed
vector (the growth-sequence scenario); the pushed values are immaterial to
size and capacity. -/
def pushN : ℕ → Vector ℕ
  | 0 => Vector.empty
  | n + 1 => (pushN n).PushBack 0

/-- Number of indices `i < n` at which the `i+1`-st `PushBack` of the
scenario changes the capacity. -/
def capChanges (n : ℕ) : ℕ :=
  ((List.range n).filter fun i =>
    decide ((pushN (i + 1)).cap ≠ (pushN i).cap)).length

/-! ## Helper lemmas -/

theorem growCap_eq_max (s : ℕ) : growCap s = max 1 (2 * s) := by
  unfold growCap; split <;> omega

theorem succ_le_growCap (s : ℕ) : s + 1 ≤ growCap s := by
  unfold growCap; split <;> omega

theorem PushBack_size (v : Vector α) (x : α) : (v.PushBack x).Size = v.Size + 1 := by
  unfold Vector.PushBack Vector.Size; split <;> simp

theorem pushN_size (n : ℕ) : (pushN n).Size = n := by
  induction n with
  | zero => rfl
  | succ n ih => rw [pushN, PushBack_size, ih]

theorem pushN_cap (n : ℕ) :
    (pushN n).cap = if n = 0 then 0 else 2 ^ Nat.clog 2 n := by
  induction n with
  | zero => rfl
  | succ n ih =>
    rcases Nat.eq_zero_or_pos n with h0 | hpos
    · subst h0
      show (Vector.PushBack Vector.empty 0).cap = _
      simp [Nat.clog_one_right, Vector.PushBack, Vector.empty, Vector.Size,
        Vector.Capacity, growCap]
    · have hn : n ≠ 0 := Nat.pos_iff_ne_zero.mp hpos
      rw [if_neg hn] at ih
      have hsz : (pushN n).Size = n := pushN_size n
      have hle : n ≤ 2 ^ Nat.clog 2 n := Nat.le_pow_clog one_lt_two n
      rw [pushN, Vector.PushBack]
      rw [show (pushN n).Capacity = 2 ^ Nat.clog 2 n from ih, hsz]
      by_cases hpow : n = 2 ^ Nat.clog 2 n
      · rw [if_pos hpow]
        have hk1 : Nat.clog 2 (n + 1) = Nat.clog 2 n + 1 := by
          have hub : Nat.clog 2 (n + 1) ≤ Nat.clog 2 n + 1 := by
            rw [← Nat.le_pow_iff_clog_le one_lt_two, pow_succ, ← hpow]
            omega
          have hlb : Nat.clog 2 n < Nat.clog 2 (n + 1) := by
            rw [← Nat.pow_lt_iff_lt_clog one_lt_two, ← hpow]
            omega
          omega
        simp only [if_neg (Nat.succ_ne_zero n), hk1, growCap, if_neg hn, pow_succ, hsz]
        omega
      · rw [if_neg hpow]
        have hlt : n < 2 ^ Nat.clog 2 n := lt_of_le_of_ne hle hpow
        have hk : Nat.clog 2 (n + 1) = Nat.clog 2 n := by
          have hub : Nat.clog 2 (n + 1) ≤ Nat.clog 2 n := by
            rw [← Nat.le_pow_iff_clog_le one_lt_two]
            omega
          have hlb : Nat.clog 2 n ≤ Nat.clog 2 (n + 1) :=
            Nat.clog_mono_right 2 (Nat.le_succ n)
          omega
        simp only [if_neg (Nat.succ_ne_zero n), hk]
        exact ih

theorem pushBack_cap_dichotomy (v : Vector α) (x : α) :
    (v.PushBack x).Capacity = v.Capacity ∨
    (v.PushBack x).Capacity = max 1 (2 * v.Capacity) := by
  unfold Vector.PushBack
  by_cases h : v.Size = v.Capacity
  · right; rw [if_pos h]; show growCap v.Size = _; rw [h, growCap_eq_max]
  · left; rw [if_neg h]; rfl

theorem count_changes_le (f : ℕ → ℕ) (hf : Monotone f) (n : ℕ) :
    ((List.range n).filter fun i => decide (f (i + 1) ≠ f i)).length ≤ f n - f 0 := by
  induction n with
  | zero => simp
  | succ n ih =>
    rw [List.range_succ, List.filter_append, List.length_append]
    have h0n : f 0 ≤ f n := hf (Nat.zero_le n)
    by_cases h : f (n + 1) = f n
    · have hp : (decide (f (n + 1) ≠ f n)) = false := by simp [h]
      simp only [List.filter_singleton, hp, cond_false, List.length_nil]
      omega
    · have hlt : f n < f (n + 1) := lt_of_le_of_ne (hf (Nat.le_succ n)) (Ne.symm h)
      have hp : (decide (f (n + 1) ≠ f n)) = true := by simp [h]
      simp only [List.filter_singleton, hp, cond_true, List.length_singleton]
      omega

theorem pushN_cap_as_index (m : ℕ) :
    (pushN m).cap =
      if (if m = 0 then 0 else Nat.clog 2 m + 1) = 0 then 0
      else 2 ^ ((if m = 0 then 0 else Nat.clog 2 m + 1) - 1) := by
  rw [pushN_cap]
  by_cases hm : m = 0 <;> simp [hm]

theorem clogIdx_mono : Monotone fun m => if m = 0 then 0 else Nat.clog 2 m + 1 := by
  intro i j hij
  by_cases hi : i = 0
  · simp [hi]
  · have hj : j ≠ 0 := by omega
    simp only [if_neg hi, if_neg hj]
    exact Nat.succ_le_succ (Nat.clog_mono_right 2 hij)

theorem pow_index_injective (s t : ℕ)
    (h : (if s = 0 then 0 else 2 ^ (s - 1)) = (if t = 0 then 0 else 2 ^ (t - 1))) :
    s = t := by
  match s, t with
  | 0, 0 => rfl
  | 0, t + 1 =>
    simp only [if_pos rfl, if_neg (Nat.succ_ne_zero t)] at h
    exact absurd h.symm (Nat.pos_iff_ne_zero.mp (Nat.pos_pow_of_pos _ (by omega)))
  | s + 1, 0 =>
    simp only [if_pos rfl, if_neg (Nat.succ_ne_zero s)] at h
    exact absurd h (Nat.pos_iff_ne_zero.mp (Nat.pos_pow_of_pos _ (by omega)))
  | s + 1, t + 1 =>
    simp only [if_neg (Nat.succ_ne_zero s), if_neg (Nat.succ_ne_zero t),
      Nat.add_sub_cancel] at h
    have := Nat.pow_right_injective (le_refl 2) h
    omega

theorem capChanges_le (n : ℕ) : capChanges n ≤ Nat.clog 2 n + 1 := by
  unfold capChanges
  have hcongr :
      ((List.range n).filter fun i => decide ((pushN (i + 1)).cap ≠ (pushN i).cap)) =
      ((List.range n).filter fun i =>
        decide ((fun m => if m = 0 then 0 else Nat.clog 2 m + 1) (i + 1) ≠
                (fun m => if m = 0 then 0 else Nat.clog 2 m + 1) i)) := by
    refine List.filter_congr fun i _ => ?_
    simp only [decide_eq_decide]
    constructor
    · intro hne hidx
      exact hne (by rw [pushN_cap_as_index, pushN_cap_as_index, hidx])
    · intro hne hcap
      exact hne (pow_index_injective _ _
        (by rw [← pushN_cap_as_index, ← pushN_cap_as_index]; exact hcap))
  rw [hcongr]
  have hb := count_changes_le _ clogIdx_mono n
  simp only [if_pos rfl, Nat.sub_zero] at hb
  by_cases hn : n = 0
  · subst hn; simp
  · rw [if_neg hn] at hb; exact hb

/-! ## Claim theorems -/

/-- C2: starting from a default-constructed vector of integers,
`PushBack(1); PushBack(2); PushBack(3)` yields `[1,2,3]` with size 3;
`Insert` at position 1 with value 9 yields `[1,9,2,3]` with size 4;
`Erase` at position 0 yields `[9,2,3]` with size 3; `PopBack` yields
`[9,2]` with size 2. -/
theorem pushBack_insert_erase_popBack_scenario :
    ((Vector.empty.PushBack 1).PushBack 2).PushBack 3 = (⟨[1, 2, 3], 4⟩ : Vector ℕ) ∧
    (⟨[1, 2, 3], 4⟩ : Vector ℕ).Size = 3 ∧
    Vector.Insert (⟨[1, 2, 3], 4⟩ : Vector ℕ) 1 9 = some (1, ⟨[1, 9, 2, 3], 4⟩) ∧
    (⟨[1, 9, 2, 3], 4⟩ : Vector ℕ).Size = 4 ∧
    Vector.Erase (⟨[1, 9, 2, 3], 4⟩ : Vector ℕ) 0 = some (0, ⟨[9, 2, 3], 4⟩) ∧
    (⟨[9, 2, 3], 4⟩ : Vector ℕ).Size = 3 ∧
    Vector.PopBack (⟨[9, 2, 3], 4⟩ : Vector ℕ) = some ⟨[9, 2], 4⟩ ∧
    (⟨[9, 2], 4⟩ : Vector ℕ).Size = 2 := by
  decide

/-- C1: the claim asserts `Emplace`/`Insert` insert one element before `pos`
for every `pos ∈ [begin, end]`, including `pos == end()` in the
non-reallocating case `size < capacity`. The code violates this boundary:
on a vector `[1]` with capacity 2, `Emplace(end(), 2)` takes the in-place
path, which move-constructs `*(end())` from `*(end()-1)` and then calls
`std::move_backward(begin()+1, end()-1, end())` whose range has
`first > last` — undefined behaviour instead of producing `[1, 2]`.
The model maps that execution to `none`. -/
theorem emplace_at_end_without_realloc_is_undefined :
    Vector.Emplace (⟨[1], 2⟩ : Vector ℕ) 1 2 = none ∧
    Vector.Insert (⟨[1], 2⟩ : Vector ℕ) 1 2 = none ∧
    (⟨[1], 2⟩ : Vector ℕ).Size < (⟨[1], 2⟩ : Vector ℕ).Capacity := by
  refine ⟨rfl, rfl, by decide⟩

/-- C3: element errors must propagate unmodified — and they do for the
new-element construction (rethrown at line 413) and the prefix transfer
(rethrown at line 421) of `EmplaceWithRealoc`; but the suffix-transfer
catch block (lines 427-429) has no rethrow, so on a full vector `[10, 20]`,
emplacing at offset 1 while the transfer of element 1 fails returns
normally (`.ok`) with only the new element live — the error is suppressed,
contradicting the claim. -/
theorem emplaceWithRealoc_error_propagation :
    Vector.EmplaceWithRealocE (⟨[10, 20], 2⟩ : Vector ℕ) 1
      (Except.error "ctorfail") (fun _ a => Except.ok a) = Except.error "ctorfail" ∧
    Vector.EmplaceWithRealocE (⟨[10, 20], 2⟩ : Vector ℕ) 1 (Except.ok 99)
      (fun i a => if i = 0 then Except.error "pfxfail" else Except.ok a) =
      Except.error "pfxfail" ∧
    Vector.EmplaceWithRealocE (⟨[10, 20], 2⟩ : Vector ℕ) 1 (Except.ok 99)
      (fun i a => if i = 1 then Except.error "sfxfail" else Except.ok a) =
      Except.ok [99] := by
  refine ⟨rfl, rfl, rfl⟩

/-- C4: when `size == capacity`, `PushBack` and `EmplaceBack` allocate a new
buffer of capacity `max(1, 2*size)` and construct the new element there
before any existing element is touched; if that construction fails, the
error propagates and the vector is observably unchanged (strong guarantee). -/
theorem pushBack_growth_strong (v : Vector α) (h : v.Size = v.Capacity) :
    (∀ e : ε, v.PushBackE (Except.error e) = Except.error (e, v)) ∧
    (∀ x : α, (v.PushBackE (Except.ok x) : Except (ε × Vector α) (Vector α)) =
      Except.ok ⟨v.elems ++ [x], max 1 (2 * v.Size)⟩) ∧
    (∀ e : ε, v.EmplaceBackE (Except.error e) = Except.error (e, v)) ∧
    (∀ x : α, (v.EmplaceBackE (Except.ok x) : Except (ε × Vector α) (Vector α)) =
      Except.ok ⟨v.elems ++ [x], max 1 (2 * v.Size)⟩) := by
  have hn : ¬ v.Size < v.Capacity := by omega
  refine ⟨fun e => ?_, fun y => ?_, fun e => ?_, fun y => ?_⟩ <;>
    simp [Vector.PushBackE, Vector.EmplaceBackE, if_pos h, if_neg hn,
      growCap_eq_max]

theorem pushBack_growth_strong_witness :
    (⟨[5], 1⟩ : Vector ℕ).Size = (⟨[5], 1⟩ : Vector ℕ).Capacity ∧
    (⟨[5], 1⟩ : Vector ℕ).PushBackE (Except.error "bad") =
      Except.error ("bad", ⟨[5], 1⟩) ∧
    ((⟨[5], 1⟩ : Vector ℕ).PushBackE (Except.ok 7) :
        Except (String × Vector ℕ) (Vector ℕ)) =
      Except.ok ⟨[5, 7], max 1 (2 * (⟨[5], 1⟩ : Vector ℕ).Size)⟩ ∧
    (⟨[5], 1⟩ : Vector ℕ).EmplaceBackE (Except.error "bad") =
      Except.error ("bad", ⟨[5], 1⟩) :=
  ⟨by decide,
   (pushBack_growth_strong (⟨[5], 1⟩ : Vector ℕ) (by decide)).1 "bad",
   (pushBack_growth_strong (⟨[5], 1⟩ : Vector ℕ) (by decide)).2.1 7,
   (pushBack_growth_strong (⟨[5], 1⟩ : Vector ℕ) (by decide)).2.2.1 "bad"⟩

/-- C5: starting empty, `n` sequential `PushBack` calls make the capacity
follow exactly the doubling-from-1 sequence: after `n` pushes the capacity
is `0` for `n = 0` and `2 ^ ⌈log₂ n⌉` otherwise (so the trace of values is
`0, 1, 2, 4, 8, …`); each push leaves the capacity unchanged or moves it to
`max 1 (2·capacity)`; and the capacity changes at most `⌈log₂ n⌉ + 1 ∈
O(log n)` times over the `n` calls. -/
theorem pushBack_capacity_doubling (n : ℕ) :
    (pushN n).Capacity = (if n = 0 then 0 else 2 ^ Nat.clog 2 n) ∧
    ((pushN (n + 1)).Capacity = (pushN n).Capacity ∨
      (pushN (n + 1)).Capacity = max 1 (2 * (pushN n).Capacity)) ∧
    capChanges n ≤ Nat.clog 2 n + 1 :=
  ⟨pushN_cap n, pushBack_cap_dichotomy (pushN n) 0, capChanges_le n⟩

/-- C6: the claim asserts the source of a move-assignment ends empty
(size 0). The code swaps instead: with destination `[1]` and source
`[2, 3]`, after `a = std::move(b)` the source holds `[1]` — size 1, not 0. -/
theorem moveAssign_source_not_empty :
    (Vector.MoveAssign (⟨[1], 1⟩ : Vector ℕ) ⟨[2, 3], 2⟩).2.Size ≠ 0 := by
  decide

/-- C6 (amended): move-construction transfers the buffer and leaves the
source empty (size 0, capacity 0); move-assignment between distinct objects
exchanges the two states, so the source ends holding the destination's
former elements and capacity (a valid, destructible container whenever the
destination was); neither operation performs any per-element copy of `T`. -/
theorem move_semantics_spec (a b : Vector α) :
    b.MoveCtor = (⟨b.elems, b.cap⟩, ⟨[], 0⟩) ∧
    b.MoveCtor.2.Size = 0 ∧ b.MoveCtor.2.Capacity = 0 ∧
    Vector.MoveAssign a b = (⟨b.elems, b.cap⟩, ⟨a.elems, a.cap⟩) ∧
    (a.WF → (Vector.MoveAssign a b).2.WF) ∧
    (b.WF → (Vector.MoveAssign a b).1.WF) ∧
    Vector.MoveCtorElemCopies = 0 ∧ Vector.MoveAssignElemCopies = 0 :=
  ⟨rfl, rfl, rfl, rfl, fun h => h, fun h => h, rfl, rfl⟩

theorem move_semantics_spec_witness :
    (⟨[2, 3], 2⟩ : Vector ℕ).MoveCtor.2.Size = 0 ∧
    (Vector.MoveAssign (⟨[1], 1⟩ : Vector ℕ) ⟨[2, 3], 2⟩).2.WF :=
  ⟨(move_semantics_spec (⟨[1], 1⟩ : Vector ℕ) ⟨[2, 3], 2⟩).2.1,
   (move_semantics_spec (⟨[1], 1⟩ : Vector ℕ) ⟨[2, 3], 2⟩).2.2.2.2.1 (by decide)⟩

/-- C7: `Reserve(n)` with `n > capacity` reallocates to capacity exactly `n`
(hence at least `n`) keeping size and every element value; with
`n ≤ capacity` it changes nothing at all. -/
theorem reserve_spec (v : Vector α) (n : ℕ) :
    (v.Capacity < n →
      (v.Reserve n).Capacity = n ∧ n ≤ (v.Reserve n).Capacity ∧
      (v.Reserve n).Size = v.Size ∧ (v.Reserve n).elems = v.elems) ∧
    (n ≤ v.Capacity → v.Reserve n = v) := by
  constructor
  · intro h
    have h' : ¬ n ≤ v.cap := Nat.not_le_of_lt h
    rw [Vector.Reserve, if_neg h']
    exact ⟨rfl, Nat.le_refl n, rfl, rfl⟩
  · intro h
    have h' : n ≤ v.cap := h
    rw [Vector.Reserve, if_pos h']

theorem reserve_spec_witness :
    ((⟨[5], 1⟩ : Vector ℕ).Reserve 4).Capacity = 4 ∧
    (⟨[5], 1⟩ : Vector ℕ).Reserve 1 = ⟨[5], 1⟩ :=
  ⟨((reserve_spec (⟨[5], 1⟩ : Vector ℕ) 4).1 (by decide)).1,
   (reserve_spec (⟨[5], 1⟩ : Vector ℕ) 1).2 (by decide)⟩

/-- C8: the claim asserts a violation of `PopBack`'s precondition
(`size > 0`) is guarded by a debug-time assertion. It is not: on an empty
vector the only assertion on the path — `offset <= capacity_` inside
`RawMemory::operator+`, invoked with `offset = size_ = 0` — passes, and the
execution proceeds into undefined behaviour unguarded. -/
theorem popBack_empty_not_asserted :
    (Vector.empty : Vector ℕ).Size = 0 ∧
    (Vector.empty : Vector ℕ).PopBackAssertFires = false ∧
    (Vector.empty : Vector ℕ).PopBack = none := by
  decide

/-- C8 (amended): `PopBack` has precondition `size > 0`; violating it is
undefined behaviour that no assertion catches (the one assertion on the
path passes on an empty vector). Under the precondition, `PopBack` destroys
exactly the last live element and decrements size by one, leaving the
elements at indices `[0, size-1)` unchanged. -/
theorem popBack_spec (v : Vector α) (h : 0 < v.Size) :
    v.PopBack = some ⟨v.elems.dropLast, v.cap⟩ ∧
    ∀ w, v.PopBack = some w →
      w.Size = v.Size - 1 ∧ w.Capacity = v.Capacity ∧
      ∀ i, i < v.Size - 1 → w.elems[i]? = v.elems[i]? := by
  have h1 : v.PopBack = some ⟨v.elems.dropLast, v.cap⟩ := by
    rw [Vector.PopBack, if_pos h]
  refine ⟨h1, fun w hw => ?_⟩
  rw [h1, Option.some_inj] at hw
  subst hw
  refine ⟨?_, rfl, fun i hi => ?_⟩
  · show v.elems.dropLast.length = v.Size - 1
    rw [List.length_dropLast]; rfl
  · show v.elems.dropLast[i]? = v.elems[i]?
    have hi' : i < v.elems.length - 1 := hi
    rw [List.dropLast_eq_take, List.getElem?_take, if_pos hi']

theorem popBack_spec_witness :
    (⟨[9, 2, 3], 4⟩ : Vector ℕ).PopBack = some ⟨List.dropLast [9, 2, 3], 4⟩ :=
  (popBack_spec (⟨[9, 2, 3], 4⟩ : Vector ℕ) (by decide)).1

/-- C10: `EmplaceBack` appends the element constructed from the arguments
and returns a reference to it — the element at index `size - 1` after the
call — in both the in-place path (`size < capacity`) and the reallocating
path. -/
theorem emplaceBack_returns_appended (v : Vector α) (x : α) :
    (v.EmplaceBack x).1 = some x ∧
    (v.EmplaceBack x).2.elems = v.elems ++ [x] ∧
    (v.EmplaceBack x).2.Size = v.Size + 1 := by
  have key : ∀ c : ℕ,
      (⟨v.elems ++ [x], c⟩ : Vector α).elems[(⟨v.elems ++ [x], c⟩ : Vector α).Size - 1]? =
        some x := by
    intro c
    show (v.elems ++ [x])[(v.elems ++ [x]).length - 1]? = some x
    rw [List.length_append, List.length_singleton, Nat.add_sub_cancel,
      List.getElem?_concat_length]
  by_cases h : v.Size < v.Capacity
  · simp only [Vector.EmplaceBack, if_pos h]
    exact ⟨key v.cap, by simp, by simp [Vector.Size]⟩
  · simp only [Vector.EmplaceBack, if_neg h]
    exact ⟨key _, by simp, by simp [Vector.Size]⟩

/-- C9: the invariant `size ≤ capacity` holds for a default-constructed
vector and is preserved by every public operation — sized construction,
copy/move construction, copy/move assignment, `Swap`, `Reserve`, `Resize`,
`PushBack`, `EmplaceBack`, `PopBack` under its precondition, and
`Emplace`/`Insert`/`Erase` on every input on which their execution is
defined. -/
theorem size_le_capacity_invariant (v a b : Vector α) (n : ℕ) (d x : α)
    (hv : v.WF) (ha : a.WF) (hb : b.WF) :
    (Vector.empty : Vector α).WF ∧
    (Vector.mkSized n d).WF ∧
    v.CopyCtor.WF ∧
    v.MoveCtor.1.WF ∧ v.MoveCtor.2.WF ∧
    (Vector.CopyAssign a b).WF ∧
    (Vector.MoveAssign a b).1.WF ∧ (Vector.MoveAssign a b).2.WF ∧
    (Vector.SwapOp a b).1.WF ∧ (Vector.SwapOp a b).2.WF ∧
    (v.Reserve n).WF ∧
    (v.Resize n d).WF ∧
    (v.PushBack x).WF ∧
    (v.EmplaceBack x).2.WF ∧
    (∀ w, v.PopBack = some w → w.WF) ∧
    (∀ off i w, v.Emplace off x = some (i, w) → w.WF) ∧
    (∀ off i w, v.Insert off x = some (i, w) → w.WF) ∧
    (∀ off i w, v.Erase off = some (i, w) → w.WF) := by
  simp only [Vector.WF, Vector.Size, Vector.Capacity] at hv ha hb
  have hEmp : ∀ off i w, v.Emplace off x = some (i, w) → w.WF := by
    intro off i w hw
    unfold Vector.Emplace at hw
    split at hw
    · next hfull =>
      unfold Vector.EmplaceWithRealoc at hw
      split at hw
      · next hoff =>
        simp only [Option.map_some', Option.some.injEq, Prod.mk.injEq] at hw
        obtain ⟨-, hw⟩ := hw
        subst hw
        simp only [Vector.WF, Vector.Size, Vector.Capacity, List.length_append,
          List.length_take, List.length_cons, List.length_drop]
        have hg := succ_le_growCap v.elems.length
        have hoff' : off ≤ v.elems.length := hoff
        show _ ≤ growCap v.elems.length
        omega
      · simp at hw
    · next hfull =>
      unfold Vector.EmplaceWithoutRealoc at hw
      split at hw
      · next hoff =>
        simp only [Option.map_some', Option.some.injEq, Prod.mk.injEq] at hw
        obtain ⟨-, hw⟩ := hw
        subst hw
        have hlt : v.elems.length ≠ v.cap := hfull
        have hoff' : off < v.elems.length := hoff
        simp only [Vector.WF, Vector.Size, Vector.Capacity, List.length_append,
          List.length_take, List.length_cons, List.length_drop]
        omega
      · simp at hw
  refine ⟨by simp [Vector.WF, Vector.empty, Vector.Size, Vector.Capacity],
    by simp [Vector.WF, Vector.mkSized, Vector.Size, Vector.Capacity],
    by simp [Vector.WF, Vector.CopyCtor, Vector.Size, Vector.Capacity],
    hv, by simp [Vector.WF, Vector.MoveCtor, Vector.Size, Vector.Capacity],
    ?_, hb, ha, hb, ha, ?_, ?_, ?_, ?_, ?_, hEmp, ?_, ?_⟩
  · unfold Vector.CopyAssign
    split
    · simp [Vector.WF, Vector.Size, Vector.Capacity]
    · next hc =>
      simp only [gt_iff_lt, not_lt, Vector.Size, Vector.Capacity] at hc
      exact hc
  · unfold Vector.Reserve
    split
    · exact hv
    · next hc =>
      simp only [Vector.WF, Vector.Size, Vector.Capacity]
      omega
  · unfold Vector.Resize Vector.Reserve
    simp only [Vector.WF, Vector.Size, Vector.Capacity] at *
    split
    · next h1 => simp only [List.length_take]; omega
    · split
      · next h1 h2 =>
        split <;>
          simp only [List.length_append, List.length_replicate] <;> omega
      · exact hv
  · unfold Vector.PushBack
    split
    · next hfull =>
      simp only [Vector.WF, Vector.Size, Vector.Capacity, List.length_append,
        List.length_singleton]
      have hg := succ_le_growCap v.elems.length
      show _ ≤ growCap v.elems.length
      omega
    · next hfull =>
      simp only [Vector.Size, Vector.Capacity] at hfull
      simp only [Vector.WF, Vector.Size, Vector.Capacity, List.length_append,
        List.length_singleton]
      omega
  · unfold Vector.EmplaceBack
    split
    · next hlt =>
      simp only [Vector.Size, Vector.Capacity] at hlt
      simp only [Vector.WF, Vector.Size, Vector.Capacity, List.length_append,
        List.length_singleton]
      omega
    · simp only [Vector.WF, Vector.Size, Vector.Capacity, List.length_append,
        List.length_singleton]
      have hg := succ_le_growCap v.elems.length
      show _ ≤ growCap v.elems.length
      omega
  · intro w hw
    unfold Vector.PopBack at hw
    split at hw
    · rw [Option.some_inj] at hw
      subst hw
      simp only [Vector.WF, Vector.Size, Vector.Capacity, List.length_dropLast]
      omega
    · simp at hw
  · intro off i w hw
    unfold Vector.Insert at hw
    exact hEmp off i w hw
  · intro off i w hw
    unfold Vector.Erase at hw
    split at hw
    · next hoff =>
      simp only [Option.some_inj, Prod.mk.injEq] at hw
      obtain ⟨-, hw⟩ := hw
      subst hw
      have hoff' : off < v.elems.length := hoff
      simp only [Vector.WF, Vector.Size, Vector.Capacity, List.length_append,
        List.length_take, List.length_drop]
      omega
    · simp at hw

theorem size_le_capacity_invariant_witness :
    ((⟨[1, 2], 3⟩ : Vector ℕ).PushBack 9).WF ∧
    ((⟨[4], 2⟩ : Vector ℕ).CopyAssign ⟨[7, 8], 2⟩).WF ∧
    ((⟨[1, 2], 3⟩ : Vector ℕ).Reserve 5).WF ∧
    ((⟨[1, 2], 3⟩ : Vector ℕ).Resize 5 0).WF := by
  have h := size_le_capacity_invariant (⟨[1, 2], 3⟩ : Vector ℕ) ⟨[4], 2⟩
    ⟨[7, 8], 2⟩ 5 0 9 (by decide) (by decide) (by decide)
  obtain ⟨-, -, -, -, -, h6, -, -, -, -, h11, h12, h13, -⟩ := h
  exact ⟨h13, h6, h11, h12⟩

end AdvancedVector
